import Mathlib

/-!
Shallow embedding of `super_process.py` (SergiLIFE/Autonomous-Optimizer-).

Modelling conventions:
* Python `float` durations and thresholds become `ℚ` (wall-clock elapsed
  times are external inputs, supplied by the task model).
* The opaque task function `process_function` is not stored inside the
  `SuperProcess` record (it would make the state type higher-order for no
  gain); instead `execute` receives a task model
  `task : Nat → Except ε (α × ℚ)` mapping the 0-based attempt index to
  either a raised error or a returned value together with the wall-clock
  time that invocation took.
* `execute` returns, besides the updated supervisor, the list of backoff
  sleeps performed (in order), the number of task invocations, and the
  outcome.  `ExecResult.noneResult` is Python's falling off the end of the
  function body and returning `None` (reachable when `max_retries ≤ 0`).
* Python's `dict` for the registry becomes an association list that
  appends on insert (dict insertion order); `metadata` becomes an
  association list of strings.
-/

/-- States of `ProcessState(Enum)` in the source. -/
inductive ProcessState : Type where
  | idle
  | running
  | paused
  | stopped
  | optimizing
  | error
deriving DecidableEq, Repr

/-- The `ProcessMetrics` dataclass. -/
structure ProcessMetrics : Type where
  execution_count : Nat
  total_runtime : ℚ
  average_runtime : ℚ
  success_count : Nat
  error_count : Nat
  optimization_level : ℚ
  last_execution_time : ℚ
  metadata : List (String × String)
deriving DecidableEq, Repr

/-- Default field values of `ProcessMetrics` (`ProcessMetrics()`). -/
def ProcessMetrics.init : ProcessMetrics :=
  { execution_count := 0
    total_runtime := 0
    average_runtime := 0
    success_count := 0
    error_count := 0
    optimization_level := 1
    last_execution_time := 0
    metadata := [] }

/-- `ProcessMetrics.update_execution(self, runtime, success=True)`. -/
def ProcessMetrics.update_execution (m : ProcessMetrics) (runtime : ℚ)
    (success : Bool) : ProcessMetrics :=
  let ec := m.execution_count + 1
  let tr := m.total_runtime + runtime
  { m with
    execution_count := ec
    total_runtime := tr
    average_runtime := tr / (ec : ℚ)
    last_execution_time := runtime
    success_count := if success then m.success_count + 1 else m.success_count
    error_count := if success then m.error_count else m.error_count + 1 }

/-- The mutable state of one `SuperProcess` instance.  `max_retries` is an
`Int` because `__init__` performs no validation and Python callers may pass
0 or a negative value.  `thread_active` abstracts `self._thread` being a
live thread. -/
structure SuperProcess : Type where
  name : String
  auto_optimize : Bool
  max_retries : Int
  optimization_threshold : ℚ
  state : ProcessState
  metrics : ProcessMetrics
  stop_flag : Bool
  pause_flag : Bool
  thread_active : Bool
deriving DecidableEq, Repr

/-- `SuperProcess.__init__` (defaults in the source: `auto_optimize=True`,
`max_retries=3`, `optimization_threshold=0.8`). -/
def SuperProcess.mk0 (name : String) (auto_optimize : Bool)
    (max_retries : Int) (optimization_threshold : ℚ) : SuperProcess :=
  { name := name
    auto_optimize := auto_optimize
    max_retries := max_retries
    optimization_threshold := optimization_threshold
    state := ProcessState.idle
    metrics := ProcessMetrics.init
    stop_flag := false
    pause_flag := false
    thread_active := false }

/-- `SuperProcess._should_optimize`. -/
def SuperProcess._should_optimize (p : SuperProcess) : Bool :=
  if p.metrics.execution_count < 10 then
    false
  else
    decide ((p.metrics.success_count : ℚ) / (p.metrics.execution_count : ℚ)
      < p.optimization_threshold)

/-- `SuperProcess._optimize`: saves the state, goes to `OPTIMIZING`, bumps
`optimization_level` by 0.1, restores the saved state. -/
def SuperProcess._optimize (p : SuperProcess) : SuperProcess :=
  let previous_state := p.state
  let p1 := { p with state := ProcessState.optimizing }
  let p2 := { p1 with metrics :=
    { p1.metrics with optimization_level := p1.metrics.optimization_level + 1 / 10 } }
  { p2 with state := previous_state }

/-- The optimization step guarding each loop iteration of `execute`:
`if self.auto_optimize and self._should_optimize(): self._optimize()`. -/
def optStep (p : SuperProcess) : SuperProcess :=
  if p.auto_optimize && p._should_optimize then p._optimize else p

/-- What a call to `SuperProcess.execute` can end in: returning a value,
raising the last error, or Python's implicit `return None` when the retry
loop body never ran and `last_error` is `None`. -/
inductive ExecResult (α ε : Type) : Type where
  | success (a : α)
  | failure (e : ε)
  | noneResult
deriving DecidableEq, Repr

/-- Everything observable about one `execute` call: the supervisor
afterwards, the backoff sleeps performed in order, the number of task
invocations, and the outcome. -/
structure ExecOutcome (α ε : Type) : Type where
  proc : SuperProcess
  sleeps : List ℚ
  calls : Nat
  result : ExecResult α ε

/-- The `while retries < self.max_retries` loop of `execute`, with
`fuel` the number of remaining iterations (at entry
`fuel = max(0, max_retries) - retries`, so the loop guard is `0 < fuel`).
On each iteration: optimization step, invoke the task; on success update
metrics with the elapsed time, set state `IDLE` and return; on failure
record the error, bump `retries`, and sleep `0.1 * retries` if
`retries < max_retries` still holds.  After the loop, if an error was
captured: update metrics with `(0.0, success=False)`, set state `ERROR`
and re-raise it. -/
def executeAux {α ε : Type} (task : Nat → Except ε (α × ℚ)) :
    Nat → SuperProcess → Nat → Option ε → List ℚ → Nat → ExecOutcome α ε
  | 0, p, _retries, lastErr, sleeps, calls =>
    match lastErr with
    | some e =>
        { proc := { p with
            metrics := p.metrics.update_execution 0 false
            state := ProcessState.error }
          sleeps := sleeps
          calls := calls
          result := ExecResult.failure e }
    | none =>
        { proc := p, sleeps := sleeps, calls := calls
          result := ExecResult.noneResult }
  | fuel + 1, p, retries, _lastErr, sleeps, calls =>
    let p1 := optStep p
    match task retries with
    | Except.ok (a, t) =>
        { proc := { p1 with
            metrics := p1.metrics.update_execution t true
            state := ProcessState.idle }
          sleeps := sleeps
          calls := calls + 1
          result := ExecResult.success a }
    | Except.error e =>
        let retries' := retries + 1
        let sleeps' :=
          if (retries' : Int) < p1.max_retries then
            sleeps ++ [((retries' : ℚ)) / 10]
          else sleeps
        executeAux task fuel p1 retries' (some e) sleeps' (calls + 1)

/-- `SuperProcess.execute`: set state `RUNNING`, then run the retry loop
with `retries = 0` and `last_error = None`. -/
def SuperProcess.execute {α ε : Type} (p : SuperProcess)
    (task : Nat → Except ε (α × ℚ)) : ExecOutcome α ε :=
  executeAux task p.max_retries.toNat { p with state := ProcessState.running }
    0 none [] 0

/-- `SuperProcess.stop`: set the stop event, join the worker (a bounded
wait with no further state effect), set state `STOPPED`. -/
def SuperProcess.stop (p : SuperProcess) : SuperProcess :=
  { p with stop_flag := true, state := ProcessState.stopped }

/-- `SuperProcess.pause`. -/
def SuperProcess.pause (p : SuperProcess) : SuperProcess :=
  { p with pause_flag := true, state := ProcessState.paused }

/-- `SuperProcess.resume`. -/
def SuperProcess.resume (p : SuperProcess) : SuperProcess :=
  { p with pause_flag := false, state := ProcessState.running }

/-- `SuperProcess.reset_metrics`. -/
def SuperProcess.reset_metrics (p : SuperProcess) : SuperProcess :=
  { p with metrics := ProcessMetrics.init }

/-- The state-mutating operations callable on one supervisor, used to
state metric invariants over every operation. -/
inductive SupervisorOp (α ε : Type) : Type where
  | exec (task : Nat → Except ε (α × ℚ))
  | reset
  | optimize
  | pauseOp
  | resumeOp
  | stopOp

/-- Apply one operation to a supervisor. -/
def applyOp {α ε : Type} (op : SupervisorOp α ε) (p : SuperProcess) :
    SuperProcess :=
  match op with
  | SupervisorOp.exec task => (p.execute task).proc
  | SupervisorOp.reset => p.reset_metrics
  | SupervisorOp.optimize => p._optimize
  | SupervisorOp.pauseOp => p.pause
  | SupervisorOp.resumeOp => p.resume
  | SupervisorOp.stopOp => p.stop

/-- The documented metrics invariant. -/
def MetricsInv (m : ProcessMetrics) : Prop :=
  m.execution_count = m.success_count + m.error_count

instance (m : ProcessMetrics) : Decidable (MetricsInv m) := by
  unfold MetricsInv; infer_instance

/-- `SuperProcessManager`: the registry, a name-keyed mapping kept in
insertion order like a Python dict. -/
structure SuperProcessManager : Type where
  processes : List (String × SuperProcess)

/-- `SuperProcessManager.__init__`. -/
def SuperProcessManager.init : SuperProcessManager :=
  { processes := [] }

/-- `SuperProcessManager.register`: raises `ValueError` (the spec's
`DuplicateNameError`) when the name is present, leaving the mapping as it
was; otherwise inserts.  The second component carries the raised message,
`none` meaning no exception. -/
def SuperProcessManager.register (mgr : SuperProcessManager)
    (p : SuperProcess) : SuperProcessManager × Option String :=
  if (mgr.processes.lookup p.name).isSome then
    (mgr, some ("Process " ++ p.name ++ " already registered"))
  else
    ({ processes := mgr.processes ++ [(p.name, p)] }, none)

/-- One per-process entry of `get_summary`. -/
structure ProcessSummaryEntry : Type where
  state : ProcessState
  executions : Nat
  success_rate : ℚ
deriving DecidableEq, Repr

/-- The per-process dictionary built inside `get_summary`. -/
def summaryOf (p : SuperProcess) : ProcessSummaryEntry :=
  { state := p.state
    executions := p.metrics.execution_count
    success_rate :=
      if 0 < p.metrics.execution_count then
        (p.metrics.success_count : ℚ) / (p.metrics.execution_count : ℚ)
      else 0 }

/-- `SuperProcessManager.get_summary`: total process count plus the
per-name summaries. -/
def SuperProcessManager.get_summary (mgr : SuperProcessManager) :
    Nat × List (String × ProcessSummaryEntry) :=
  (mgr.processes.length, mgr.processes.map (fun x => (x.1, summaryOf x.2)))

/-- The expected backoff sequence produced by `j` consecutive failed
attempts that each sleep, starting with the failure that bumps the retry
counter from `r` to `r + 1`. -/
def backoffList (r : Nat) : Nat → List ℚ
  | 0 => []
  | j + 1 => ((((r + 1 : Nat)) : ℚ) / 10) :: backoffList (r + 1) j

/- Concrete instances used by witnesses and counterexamples. -/

/-- A freshly constructed supervisor with the source's default
configuration. -/
def procFresh : SuperProcess := SuperProcess.mk0 "fresh" true 3 (8 / 10)

/-- A supervisor constructed with `max_retries=0`. -/
def procZeroRetries : SuperProcess := SuperProcess.mk0 "zero" true 0 (8 / 10)

/-- A supervisor constructed with `max_retries=-1`. -/
def procNegRetries : SuperProcess := SuperProcess.mk0 "neg" true (-1) (8 / 10)

/-- A task that always returns 1 instantly. -/
def constOkTask : Nat → Except String (Nat × ℚ) := fun _ => Except.ok (1, 1)

/-- A task that always raises. -/
def taskBad : Nat → Except String (Nat × ℚ) := fun _ => Except.error "bad"

/-- A supervisor with `max_retries=2`. -/
def procFail : SuperProcess := SuperProcess.mk0 "fail2" true 2 (8 / 10)

/-- A supervisor with `max_retries=3`. -/
def procRetry : SuperProcess := SuperProcess.mk0 "retry3" true 3 (8 / 10)

/-- A task failing on attempts 1 and 2 and succeeding on attempt 3. -/
def taskThird : Nat → Except String (Nat × ℚ) :=
  fun i => if i < 2 then Except.error "boom" else Except.ok (7, 1 / 2)

/-- Helper: the optimization step only ever changes `optimization_level`. -/
lemma optStep_shape (p : SuperProcess) :
    ∃ l : ℚ, optStep p
      = { p with metrics := { p.metrics with optimization_level := l } } := by
  unfold optStep SuperProcess._optimize
  by_cases h : (p.auto_optimize && p._should_optimize) = true
  · exact ⟨p.metrics.optimization_level + 1 / 10, by rw [if_pos h]⟩
  · exact ⟨p.metrics.optimization_level, by rw [if_neg h]⟩

/-- Helper: `update_execution` preserves the count invariant. -/
lemma update_execution_inv (m : ProcessMetrics) (r : ℚ) (s : Bool)
    (h : MetricsInv m) : MetricsInv (m.update_execution r s) := by
  unfold MetricsInv ProcessMetrics.update_execution at *
  cases s <;> simp <;> omega

/-- C10: running the optimization hook increments
`Metrics.optimization_level` by exactly 0.1, restores the supervisor's
state to its prior value, and leaves every other metrics field
(`execution_count`, `total_runtime`, `average_runtime`, `success_count`,
`error_count`, `last_execution_time`, `metadata`) and every other
supervisor field unchanged. -/
theorem optimize_frame (p : SuperProcess) :
    p._optimize = { p with metrics := { p.metrics with
      optimization_level := p.metrics.optimization_level + 1 / 10 } } := rfl

/-- C4 (code evaluated at the failing input): a supervisor constructed
with `max_retries = 0` (or `-1`) does not reject the configuration, and
`execute` returns `None` without invoking the task function even once and
without raising: the retry loop body never runs, metrics are untouched and
the state is left `RUNNING`. -/
theorem execute_nonpos_retries_silent :
    (procZeroRetries.execute constOkTask).result = ExecResult.noneResult ∧
    (procZeroRetries.execute constOkTask).calls = 0 ∧
    (procZeroRetries.execute constOkTask).proc.state = ProcessState.running ∧
    (procZeroRetries.execute constOkTask).proc.metrics = ProcessMetrics.init ∧
    (procNegRetries.execute constOkTask).result = ExecResult.noneResult ∧
    (procNegRetries.execute constOkTask).calls = 0 :=
  ⟨rfl, rfl, rfl, rfl, rfl, rfl⟩

/-- C6: the optimization trigger returns true iff
`execution_count ≥ 10` and `success_count / execution_count` is below the
threshold; in particular it is false whenever `execution_count < 10`. -/
theorem should_optimize_spec (p : SuperProcess) :
    (p._should_optimize = true ↔
      (10 ≤ p.metrics.execution_count ∧
        (p.metrics.success_count : ℚ) / (p.metrics.execution_count : ℚ)
          < p.optimization_threshold)) ∧
    (p.metrics.execution_count < 10 → p._should_optimize = false) := by
  constructor
  · unfold SuperProcess._should_optimize
    by_cases h : p.metrics.execution_count < 10
    · rw [if_pos h]
      constructor
      · intro hfalse; exact Bool.noConfusion hfalse
      · intro hc; exact absurd hc.1 (by omega)
    · rw [if_neg h]
      constructor
      · intro hr; exact ⟨by omega, of_decide_eq_true hr⟩
      · intro hc; exact decide_eq_true hc.2
  · intro h
    unfold SuperProcess._should_optimize
    rw [if_pos h]

/-- Witness for `should_optimize_spec` at a freshly built supervisor. -/
theorem should_optimize_spec_witness :
    procFresh.metrics.execution_count < 10 ∧
    procFresh._should_optimize = false :=
  ⟨by decide, (should_optimize_spec procFresh).2 (by decide)⟩

/-- C9 counterexample: on a supervisor whose continuous mode was never
started, `stop()` is not a pure state change — it also flips the
stop-requested flag from `false` to `true`, so "no effect other than
setting state to Stopped" fails as stated. -/
theorem stop_changes_stop_flag :
    procFresh.thread_active = false ∧
    procFresh.stop ≠ { procFresh with state := ProcessState.stopped } :=
  ⟨rfl, fun h => Bool.noConfusion (congrArg SuperProcess.stop_flag h)⟩

/-- C9 (amended): `stop()` is total (a plain state transformer, never an
error) and idempotent — after each of two successive calls the state is
`Stopped` — and on a supervisor whose continuous mode was never started it
has no effect other than setting the state to `Stopped` and recording the
stop request in the stop flag. -/
theorem stop_idempotent_total (p : SuperProcess) :
    (p.stop).state = ProcessState.stopped ∧
    ((p.stop).stop).state = ProcessState.stopped ∧
    (p.stop).stop = p.stop ∧
    (p.thread_active = false →
      p.stop = { p with state := ProcessState.stopped, stop_flag := true }) :=
  ⟨rfl, rfl, rfl, fun _ => rfl⟩

/-- Witness for `stop_idempotent_total` at a freshly built supervisor. -/
theorem stop_idempotent_total_witness :
    procFresh.thread_active = false ∧
    procFresh.stop
      = { procFresh with state := ProcessState.stopped, stop_flag := true } :=
  ⟨rfl, (stop_idempotent_total procFresh).2.2.2 rfl⟩

/-- Helper: `List.lookup` over an append tries the left list first. -/
lemma lookup_append {β : Type} (l1 l2 : List (String × β)) (n : String) :
    (l1 ++ l2).lookup n = ((l1.lookup n).or (l2.lookup n)) := by
  induction l1 with
  | nil => simp [List.lookup]
  | cons a l ih =>
      by_cases h : n = a.1
      · simp [List.lookup, h]
      · have hb : (n == a.1) = false := beq_false_of_ne h
        simp [List.lookup, hb, ih]

/-- C7: registering a name already present raises (the source's
`ValueError`, the spec's `DuplicateNameError`) and leaves the registry
mapping exactly as it was; registering a fresh name raises nothing,
inserts it, and changes no other entry. -/
theorem register_spec (mgr : SuperProcessManager) (p : SuperProcess) :
    ((mgr.processes.lookup p.name).isSome = true →
      (mgr.register p).2.isSome = true ∧ (mgr.register p).1 = mgr) ∧
    (mgr.processes.lookup p.name = none →
      (mgr.register p).2 = none ∧
      (mgr.register p).1.processes.lookup p.name = some p ∧
      ∀ n, n ≠ p.name →
        (mgr.register p).1.processes.lookup n = mgr.processes.lookup n) := by
  constructor
  · intro h
    unfold SuperProcessManager.register
    rw [if_pos h]
    exact ⟨rfl, rfl⟩
  · intro h
    unfold SuperProcessManager.register
    rw [if_neg (by rw [h]; simp)]
    refine ⟨rfl, ?_, ?_⟩
    · show (mgr.processes ++ [(p.name, p)]).lookup p.name = some p
      rw [lookup_append, h]
      simp [List.lookup]
    · intro n hn
      show (mgr.processes ++ [(p.name, p)]).lookup n = mgr.processes.lookup n
      rw [lookup_append]
      have hb : (n == p.name) = false := beq_false_of_ne hn
      simp [List.lookup, hb]

/-- A supervisor used for registry witnesses. -/
def procReg : SuperProcess := SuperProcess.mk0 "alpha" true 3 (8 / 10)

/-- A registry already holding the name "alpha". -/
def mgrOne : SuperProcessManager := { processes := [("alpha", procReg)] }

/-- Witness for `register_spec`: inserting into the empty registry
succeeds and is found by lookup; re-registering the same name raises and
leaves the registry untouched. -/
theorem register_spec_witness :
    (SuperProcessManager.init.register procReg).2 = none ∧
    (SuperProcessManager.init.register procReg).1.processes.lookup "alpha"
      = some procReg ∧
    (mgrOne.register procReg).2.isSome = true ∧
    (mgrOne.register procReg).1 = mgrOne := by
  have hfresh := (register_spec SuperProcessManager.init procReg).2 rfl
  have hdup := (register_spec mgrOne procReg).1 rfl
  exact ⟨hfresh.1, hfresh.2.1, hdup.1, hdup.2⟩

/-- C8: the summary of the empty registry is `(0, [])`; the reported total
is always the number of registered supervisors; every registered
supervisor appears in the summary with its entry, whose `success_rate` is
`0` when `execution_count = 0` and `success_count / execution_count`
otherwise — never a division-by-zero error. -/
theorem summary_spec (mgr : SuperProcessManager) (n : String)
    (p : SuperProcess) (h : (n, p) ∈ mgr.processes) :
    SuperProcessManager.init.get_summary = (0, ([] : List (String × ProcessSummaryEntry))) ∧
    (mgr.get_summary).1 = mgr.processes.length ∧
    (n, summaryOf p) ∈ (mgr.get_summary).2 ∧
    (p.metrics.execution_count = 0 → (summaryOf p).success_rate = 0) ∧
    (0 < p.metrics.execution_count →
      (summaryOf p).success_rate
        = (p.metrics.success_count : ℚ) / (p.metrics.execution_count : ℚ)) := by
  refine ⟨rfl, rfl, ?_, ?_, ?_⟩
  · exact List.mem_map.mpr ⟨(n, p), h, rfl⟩
  · intro h0
    unfold summaryOf
    simp [h0]
  · intro h0
    unfold summaryOf
    simp [if_pos h0]

/-- A registry holding one freshly built supervisor. -/
def mgrSum : SuperProcessManager := { processes := [("fresh", procFresh)] }

/-- Witness for `summary_spec`: the single registered supervisor appears
in the summary and its zero executions give rate 0. -/
theorem summary_spec_witness :
    ("fresh", summaryOf procFresh) ∈ (mgrSum.get_summary).2 ∧
    (summaryOf procFresh).success_rate = 0 := by
  have h := summary_spec mgrSum "fresh" procFresh (List.mem_singleton.mpr rfl)
  exact ⟨h.2.2.1, h.2.2.2.1 rfl⟩

/-- Helper: the count invariant survives the retry loop. -/
lemma executeAux_inv {α ε : Type} (task : Nat → Except ε (α × ℚ)) :
    ∀ (fuel : Nat) (p : SuperProcess) (retries : Nat) (lastErr : Option ε)
      (sleeps : List ℚ) (calls : Nat), MetricsInv p.metrics →
      MetricsInv (executeAux task fuel p retries lastErr sleeps calls).proc.metrics := by
  intro fuel
  induction fuel with
  | zero =>
      intro p retries lastErr sleeps calls h
      cases lastErr with
      | none => exact h
      | some e => exact update_execution_inv _ _ _ h
  | succ f ih =>
      intro p retries lastErr sleeps calls h
      obtain ⟨l, hl⟩ := optStep_shape p
      have hinv1 : MetricsInv (optStep p).metrics := by
        rw [hl]; exact h
      show MetricsInv (executeAux task (f + 1) p retries lastErr sleeps calls).proc.metrics
      rw [executeAux]
      cases htask : task retries with
      | ok v =>
          cases v with
          | mk a t => exact update_execution_inv _ _ _ hinv1
      | error e =>
          exact ih (optStep p) (retries + 1) (some e) _ (calls + 1) hinv1

/-- C3: the invariant `execution_count = success_count + error_count`
holds of the zero-valued initial metrics and is preserved by every
supervisor operation (`execute` with any task, `reset_metrics`,
`_optimize`, `pause`, `resume`, `stop`); moreover every metrics update
leaves `execution_count` positive and recomputes `average_runtime` as
`total_runtime / execution_count`, so it is never stale. -/
theorem metrics_invariant {α ε : Type} (op : SupervisorOp α ε)
    (p : SuperProcess) (h : MetricsInv p.metrics) (m : ProcessMetrics)
    (r : ℚ) (s : Bool) :
    MetricsInv ProcessMetrics.init ∧
    MetricsInv (applyOp op p).metrics ∧
    0 < (m.update_execution r s).execution_count ∧
    (m.update_execution r s).average_runtime
      = (m.update_execution r s).total_runtime
        / ((m.update_execution r s).execution_count : ℚ) := by
  refine ⟨rfl, ?_, Nat.succ_pos _, rfl⟩
  cases op with
  | exec task =>
      exact executeAux_inv task p.max_retries.toNat
        { p with state := ProcessState.running } 0 none [] 0 h
  | reset => exact rfl
  | optimize =>
      obtain ⟨l, hl⟩ := optStep_shape p
      show MetricsInv p._optimize.metrics
      exact h
  | pauseOp => exact h
  | resumeOp => exact h
  | stopOp => exact h

/-- Witness for `metrics_invariant`: a fresh supervisor satisfies the
invariant and keeps it across a `stop`, and a concrete update recomputes
the average. -/
theorem metrics_invariant_witness :
    MetricsInv procFresh.metrics ∧
    (MetricsInv ProcessMetrics.init ∧
     MetricsInv (applyOp (SupervisorOp.stopOp : SupervisorOp Nat String) procFresh).metrics ∧
     0 < (ProcessMetrics.init.update_execution 2 true).execution_count ∧
     (ProcessMetrics.init.update_execution 2 true).average_runtime
       = (ProcessMetrics.init.update_execution 2 true).total_runtime
         / (((ProcessMetrics.init.update_execution 2 true).execution_count : Nat) : ℚ)) :=
  ⟨rfl, metrics_invariant (SupervisorOp.stopOp : SupervisorOp Nat String)
    procFresh rfl ProcessMetrics.init 2 true⟩

/-- Helper: the recursive backoff sequence as a map over `List.range`. -/
lemma backoffList_eq_map (j : Nat) : ∀ r : Nat,
    backoffList r j
      = (List.range j).map (fun i => (((r + i + 1 : Nat)) : ℚ) / 10) := by
  induction j with
  | zero => intro r; simp [backoffList]
  | succ j ih =>
      intro r
      rw [backoffList, ih (r + 1), List.range_succ_eq_map, List.map_cons,
        List.map_map]
      have h1 : (((r + 0 + 1 : Nat)) : ℚ) / 10 = (((r + 1 : Nat)) : ℚ) / 10 := by
        norm_num
      have h2 : ((fun i => (((r + i + 1 : Nat)) : ℚ) / 10) ∘ Nat.succ)
          = fun i => (((r + 1 + i + 1 : Nat)) : ℚ) / 10 := by
        funext i
        show (((r + (i + 1) + 1 : Nat)) : ℚ) / 10
          = (((r + 1 + i + 1 : Nat)) : ℚ) / 10
        congr 2
        omega
      rw [h2, ← h1]

/-- Helper: the backoff sequence from a zero retry counter. -/
lemma backoffList_zero (j : Nat) :
    backoffList 0 j
      = (List.range j).map (fun i => (((i + 1 : Nat)) : ℚ) / 10) := by
  rw [backoffList_eq_map]
  exact List.map_congr_left (fun i _ => by norm_num)

/-- Helper: if the first `j` attempts fail and attempt `j` (0-based,
counting from the current retry counter) succeeds within the remaining
fuel, the loop returns the success value with metrics updated once by the
successful attempt's elapsed time, state `IDLE`, one backoff sleep per
failed attempt, and exactly `j + 1` task invocations. -/
lemma executeAux_success {α ε : Type} (task : Nat → Except ε (α × ℚ))
    (a : α) (t : ℚ) :
    ∀ (j fuel : Nat) (p : SuperProcess) (retries : Nat) (lastErr : Option ε)
      (sleeps : List ℚ) (calls : Nat),
      ((fuel : Int) + (retries : Int) = p.max_retries) →
      j < fuel →
      (∀ i, i < j → ∃ e, task (retries + i) = Except.error e) →
      task (retries + j) = Except.ok (a, t) →
      ∃ l : ℚ,
        executeAux task fuel p retries lastErr sleeps calls =
          { proc := { p with
              state := ProcessState.idle
              metrics := { p.metrics with
                execution_count := p.metrics.execution_count + 1
                total_runtime := p.metrics.total_runtime + t
                average_runtime := (p.metrics.total_runtime + t)
                  / (((p.metrics.execution_count + 1 : Nat)) : ℚ)
                last_execution_time := t
                success_count := p.metrics.success_count + 1
                optimization_level := l } }
            sleeps := sleeps ++ backoffList retries j
            calls := calls + (j + 1)
            result := ExecResult.success a } := by
  intro j
  induction j with
  | zero =>
      intro fuel p retries lastErr sleeps calls hinv hj hfail hsucc
      cases fuel with
      | zero => exact absurd hj (by omega)
      | succ f =>
          obtain ⟨l, hl⟩ := optStep_shape p
          refine ⟨l, ?_⟩
          have hs : task retries = Except.ok (a, t) := by simpa using hsucc
          rw [executeAux, hs]
          simp only [backoffList, List.append_nil]
          rw [hl]
          rfl
  | succ j ih =>
      intro fuel p retries lastErr sleeps calls hinv hj hfail hsucc
      cases fuel with
      | zero => exact absurd hj (by omega)
      | succ f =>
          obtain ⟨e0, he0⟩ := hfail 0 (by omega)
          have he0' : task retries = Except.error e0 := by simpa using he0
          obtain ⟨l0, hl0⟩ := optStep_shape p
          have hmr : (optStep p).max_retries = p.max_retries := by rw [hl0]
          have hcond : (((retries + 1 : Nat)) : Int) < (optStep p).max_retries := by
            rw [hmr, ← hinv]
            push_cast
            omega
          have hinv' : ((f : Int) + ((retries + 1 : Nat) : Int))
              = (optStep p).max_retries := by
            rw [hmr, ← hinv]
            push_cast
            ring
          have hfail' : ∀ i, i < j → ∃ e, task (retries + 1 + i) = Except.error e := by
            intro i hi
            obtain ⟨e, he⟩ := hfail (i + 1) (by omega)
            exact ⟨e, by rw [show retries + 1 + i = retries + (i + 1) by omega]; exact he⟩
          have hsucc' : task (retries + 1 + j) = Except.ok (a, t) := by
            rw [show retries + 1 + j = retries + (j + 1) by omega]
            exact hsucc
          obtain ⟨l, hrec⟩ := ih f (optStep p) (retries + 1) (some e0)
            (sleeps ++ [((((retries + 1 : Nat)) : ℚ)) / 10]) (calls + 1)
            hinv' (by omega) hfail' hsucc'
          refine ⟨l, ?_⟩
          rw [executeAux, he0']
          simp only []
          rw [if_pos hcond, hrec, hl0]
          simp only [backoffList, List.append_assoc, List.singleton_append]
          rw [show calls + 1 + (j + 1) = calls + (j + 1 + 1) by omega]

/-- Helper: if every one of the remaining `f + 1` attempts fails, the loop
raises the error of the last attempt, records one failed execution with
runtime `0.0` (total runtime unchanged), sets state `ERROR`, sleeps after
every failed attempt except the last, and invokes the task `f + 1`
times. -/
lemma executeAux_allfail {α ε : Type} (task : Nat → Except ε (α × ℚ))
    (es : Nat → ε) :
    ∀ (f : Nat) (p : SuperProcess) (retries : Nat) (lastErr : Option ε)
      (sleeps : List ℚ) (calls : Nat),
      (((f + 1 : Nat) : Int) + (retries : Int) = p.max_retries) →
      (∀ i, i ≤ f → task (retries + i) = Except.error (es (retries + i))) →
      ∃ l : ℚ,
        executeAux task (f + 1) p retries lastErr sleeps calls =
          { proc := { p with
              state := ProcessState.error
              metrics := { p.metrics with
                execution_count := p.metrics.execution_count + 1
                average_runtime := p.metrics.total_runtime
                  / (((p.metrics.execution_count + 1 : Nat)) : ℚ)
                last_execution_time := 0
                error_count := p.metrics.error_count + 1
                optimization_level := l } }
            sleeps := sleeps ++ backoffList retries f
            calls := calls + (f + 1)
            result := ExecResult.failure (es (retries + f)) } := by
  intro f
  induction f with
  | zero =>
      intro p retries lastErr sleeps calls hinv hfail
      obtain ⟨l0, hl0⟩ := optStep_shape p
      refine ⟨l0, ?_⟩
      have he : task retries = Except.error (es retries) := by
        simpa using hfail 0 (by omega)
      have hmr : (optStep p).max_retries = p.max_retries := by rw [hl0]
      have hcond : ¬ ((((retries + 1 : Nat)) : Int) < (optStep p).max_retries) := by
        rw [hmr, ← hinv]
        push_cast
        omega
      rw [executeAux, he]
      simp only []
      rw [if_neg hcond, executeAux, hl0]
      simp only [backoffList, List.append_nil]
      have htr : p.metrics.total_runtime + 0 = p.metrics.total_runtime :=
        add_zero _
      unfold ProcessMetrics.update_execution
      simp only [htr]
      rfl
  | succ f ih =>
      intro p retries lastErr sleeps calls hinv hfail
      obtain ⟨l0, hl0⟩ := optStep_shape p
      have he : task retries = Except.error (es retries) := by
        simpa using hfail 0 (by omega)
      have hmr : (optStep p).max_retries = p.max_retries := by rw [hl0]
      have hcond : (((retries + 1 : Nat)) : Int) < (optStep p).max_retries := by
        rw [hmr, ← hinv]
        push_cast
        omega
      have hinv' : (((f + 1 : Nat)) : Int) + ((retries + 1 : Nat) : Int)
          = (optStep p).max_retries := by
        rw [hmr, ← hinv]
        push_cast
        ring
      have hfail' : ∀ i, i ≤ f →
          task (retries + 1 + i) = Except.error (es (retries + 1 + i)) := by
        intro i hi
        rw [show retries + 1 + i = retries + (i + 1) by omega]
        exact hfail (i + 1) (by omega)
      obtain ⟨l, hrec⟩ := ih (optStep p) (retries + 1) (some (es retries))
        (sleeps ++ [((((retries + 1 : Nat)) : ℚ)) / 10]) (calls + 1)
        hinv' hfail'
      refine ⟨l, ?_⟩
      rw [executeAux, he]
      simp only []
      rw [if_pos hcond, hrec, hl0]
      simp only [backoffList, List.append_assoc, List.singleton_append]
      rw [show calls + 1 + (f + 1) = calls + (f + 1 + 1) by omega,
        show retries + 1 + f = retries + (f + 1) by omega]

/-- C1: a task failing on every attempt before attempt `k` and succeeding
on attempt `k ≤ maxRetries` (1-based) makes `execute` return the success
value immediately — exactly `k` invocations, no further retries — set
state to `Idle`, and record only the terminal outcome: `execution_count`
grows by exactly 1, `success_count` by 1, `error_count` is unchanged, and
the successful attempt's elapsed time is recorded in `total_runtime` and
`last_execution_time`. -/
theorem execute_success_after_failures {α ε : Type} (p : SuperProcess)
    (task : Nat → Except ε (α × ℚ)) (k : Nat) (a : α) (t : ℚ)
    (hk : 1 ≤ k) (hmax : (k : Int) ≤ p.max_retries)
    (hfail : ∀ i, i + 1 < k → ∃ e, task i = Except.error e)
    (hsucc : task (k - 1) = Except.ok (a, t)) :
    (p.execute task).result = ExecResult.success a ∧
    (p.execute task).calls = k ∧
    (p.execute task).proc.state = ProcessState.idle ∧
    (p.execute task).proc.metrics.execution_count
      = p.metrics.execution_count + 1 ∧
    (p.execute task).proc.metrics.success_count
      = p.metrics.success_count + 1 ∧
    (p.execute task).proc.metrics.error_count = p.metrics.error_count ∧
    (p.execute task).proc.metrics.total_runtime
      = p.metrics.total_runtime + t ∧
    (p.execute task).proc.metrics.last_execution_time = t := by
  have h0 : (0 : Int) ≤ p.max_retries := by omega
  have hinv : ((p.max_retries.toNat : Nat) : Int) + ((0 : Nat) : Int)
      = ({ p with state := ProcessState.running } : SuperProcess).max_retries := by
    show ((p.max_retries.toNat : Nat) : Int) + ((0 : Nat) : Int) = p.max_retries
    omega
  have hj : k - 1 < p.max_retries.toNat := by omega
  have hfail' : ∀ i, i < k - 1 → ∃ e, task (0 + i) = Except.error e := by
    intro i hi
    obtain ⟨e, he⟩ := hfail i (by omega)
    exact ⟨e, by simpa using he⟩
  have hsucc' : task (0 + (k - 1)) = Except.ok (a, t) := by simpa using hsucc
  obtain ⟨l, hrun⟩ := executeAux_success task a t (k - 1) p.max_retries.toNat
    { p with state := ProcessState.running } 0 none [] 0 hinv hj hfail' hsucc'
  unfold SuperProcess.execute
  rw [hrun]
  refine ⟨rfl, by show 0 + (k - 1 + 1) = k; omega, rfl, rfl, rfl, rfl, rfl, rfl⟩

/-- Witness for `execute_success_after_failures`: with `maxRetries = 3`, a
task failing twice then returning 7 in half a second makes `execute`
return 7 after exactly 3 invocations, with one success recorded. -/
theorem execute_success_after_failures_witness :
    (procRetry.execute taskThird).result = ExecResult.success 7 ∧
    (procRetry.execute taskThird).calls = 3 ∧
    (procRetry.execute taskThird).proc.metrics.execution_count
      = procRetry.metrics.execution_count + 1 := by
  have h := execute_success_after_failures procRetry taskThird 3 7 (1 / 2)
    (by omega) (by decide)
    (fun i hi => ⟨"boom", by unfold taskThird; rw [if_pos (by omega : i < 2)]⟩)
    rfl
  exact ⟨h.1, h.2.1, h.2.2.2.1⟩

/-- C2: a task failing on all `maxRetries ≥ 1` attempts makes `execute`
propagate the error captured on the last attempt, set state to `Error`,
and update metrics once with `(0.0, success=false)`: `total_runtime` is
unchanged, `error_count` grows by exactly 1, `success_count` is unchanged,
`execution_count` grows by 1 and `last_execution_time` becomes 0. -/
theorem execute_all_fail {α ε : Type} (p : SuperProcess)
    (task : Nat → Except ε (α × ℚ)) (es : Nat → ε) (n : Nat)
    (hn : 1 ≤ n) (hmax : p.max_retries = (n : Int))
    (hfail : ∀ i, i < n → task i = Except.error (es i)) :
    (p.execute task).result = ExecResult.failure (es (n - 1)) ∧
    (p.execute task).proc.state = ProcessState.error ∧
    (p.execute task).proc.metrics.total_runtime = p.metrics.total_runtime ∧
    (p.execute task).proc.metrics.error_count = p.metrics.error_count + 1 ∧
    (p.execute task).proc.metrics.success_count = p.metrics.success_count ∧
    (p.execute task).proc.metrics.execution_count
      = p.metrics.execution_count + 1 ∧
    (p.execute task).proc.metrics.last_execution_time = 0 ∧
    (p.execute task).calls = n := by
  have hfe : p.max_retries.toNat = (n - 1) + 1 := by omega
  have hinv : (((n - 1 + 1 : Nat)) : Int) + ((0 : Nat) : Int)
      = ({ p with state := ProcessState.running } : SuperProcess).max_retries := by
    show (((n - 1 + 1 : Nat)) : Int) + ((0 : Nat) : Int) = p.max_retries
    omega
  have hfail' : ∀ i, i ≤ n - 1 →
      task (0 + i) = Except.error (es (0 + i)) := by
    intro i hi
    simpa using hfail i (by omega)
  obtain ⟨l, hrun⟩ := executeAux_allfail task es (n - 1)
    { p with state := ProcessState.running } 0 none [] 0 hinv hfail'
  unfold SuperProcess.execute
  rw [hfe, hrun]
  refine ⟨by show ExecResult.failure (es (0 + (n - 1))) = _ ; rw [Nat.zero_add],
    rfl, rfl, rfl, rfl, rfl, rfl, by show 0 + (n - 1 + 1) = n; omega⟩

/-- Witness for `execute_all_fail`: with `maxRetries = 2` and a task that
always raises, `execute` propagates the error, leaves state `Error`, and
records one error and no success. -/
theorem execute_all_fail_witness :
    (procFail.execute taskBad).result = ExecResult.failure "bad" ∧
    (procFail.execute taskBad).proc.state = ProcessState.error ∧
    (procFail.execute taskBad).proc.metrics.error_count
      = procFail.metrics.error_count + 1 ∧
    (procFail.execute taskBad).proc.metrics.success_count
      = procFail.metrics.success_count := by
  have h := execute_all_fail procFail taskBad (fun _ => "bad") 2 (by omega) rfl
    (fun i _ => rfl)
  exact ⟨h.1, h.2.1, h.2.2.2.1, h.2.2.2.2.1⟩

/-- C5: the backoff delays of `execute` are linear, exactly
`0.1 * attemptNumber` seconds after the failed attempt numbered
`attemptNumber` (1-based), and only when attempts remain: when all `n`
attempts fail the sleeps are `0.1*1, …, 0.1*(n-1)` — none after the final
attempt — and when attempt `k` succeeds they are `0.1*1, …, 0.1*(k-1)`. -/
theorem execute_backoff_linear {α ε : Type} (p : SuperProcess)
    (task : Nat → Except ε (α × ℚ)) (es : Nat → ε) (n k : Nat) (a : α)
    (t : ℚ) (hn : 1 ≤ n) (hmax : p.max_retries = (n : Int)) :
    ((∀ i, i < n → task i = Except.error (es i)) →
      (p.execute task).sleeps
        = (List.range (n - 1)).map (fun i => (((i + 1 : Nat)) : ℚ) / 10)) ∧
    (1 ≤ k → (k : Int) ≤ p.max_retries →
      (∀ i, i + 1 < k → ∃ e, task i = Except.error e) →
      task (k - 1) = Except.ok (a, t) →
      (p.execute task).sleeps
        = (List.range (k - 1)).map (fun i => (((i + 1 : Nat)) : ℚ) / 10)) := by
  constructor
  · intro hfail
    have hfe : p.max_retries.toNat = (n - 1) + 1 := by omega
    have hinv : (((n - 1 + 1 : Nat)) : Int) + ((0 : Nat) : Int)
        = ({ p with state := ProcessState.running } : SuperProcess).max_retries := by
      show (((n - 1 + 1 : Nat)) : Int) + ((0 : Nat) : Int) = p.max_retries
      omega
    have hfail' : ∀ i, i ≤ n - 1 →
        task (0 + i) = Except.error (es (0 + i)) := by
      intro i hi
      simpa using hfail i (by omega)
    obtain ⟨l, hrun⟩ := executeAux_allfail task es (n - 1)
      { p with state := ProcessState.running } 0 none [] 0 hinv hfail'
    unfold SuperProcess.execute
    rw [hfe, hrun]
    show [] ++ backoffList 0 (n - 1) = _
    rw [List.nil_append, backoffList_zero]
  · intro hk hmaxk hfail hsucc
    have hinv : ((p.max_retries.toNat : Nat) : Int) + ((0 : Nat) : Int)
        = ({ p with state := ProcessState.running } : SuperProcess).max_retries := by
      show ((p.max_retries.toNat : Nat) : Int) + ((0 : Nat) : Int) = p.max_retries
      omega
    have hj : k - 1 < p.max_retries.toNat := by omega
    have hfail' : ∀ i, i < k - 1 → ∃ e, task (0 + i) = Except.error e := by
      intro i hi
      obtain ⟨e, he⟩ := hfail i (by omega)
      exact ⟨e, by simpa using he⟩
    have hsucc' : task (0 + (k - 1)) = Except.ok (a, t) := by simpa using hsucc
    obtain ⟨l, hrun⟩ := executeAux_success task a t (k - 1) p.max_retries.toNat
      { p with state := ProcessState.running } 0 none [] 0 hinv hj hfail' hsucc'
    unfold SuperProcess.execute
    rw [hrun]
    show [] ++ backoffList 0 (k - 1) = _
    rw [List.nil_append, backoffList_zero]

/-- Witness for `execute_backoff_linear`: two always-failing attempts
produce the single sleep `0.1`, and failing twice then succeeding on the
third attempt produces sleeps `0.1, 0.2`. -/
theorem execute_backoff_linear_witness :
    (procFail.execute taskBad).sleeps = [1 / 10] ∧
    (procRetry.execute taskThird).sleeps = [1 / 10, 2 / 10] := by
  constructor
  · have h := (execute_backoff_linear procFail taskBad (fun _ => "bad") 2 0 0
      (0 : ℚ) (by omega) rfl).1 (fun i _ => rfl)
    norm_num [h, List.range_succ]
  · have h := (execute_backoff_linear procRetry taskThird (fun _ => "boom") 3 3
      7 (1 / 2) (by omega) rfl).2 (by omega) (by decide)
      (fun i hi => ⟨"boom", by unfold taskThird; rw [if_pos (by omega : i < 2)]⟩)
      rfl
    norm_num [h, List.range_succ]
